import Mathlib

/-!
# Verification of the DataStorage record-synchronization core

A shallow embedding of the `DataStorage` class (src/src/DataStorage.js) and
its companion types (`DSDataRecord`, `DSSyncResult`, `DSReconcileResult`),
together with theorems settling the specification claims about the record
store, the delta compiler, the sync engine, the local-cache helpers and the
crypto guard.

Modelling conventions:
* JavaScript object references are modelled by an explicit object-identity
  tag `oid`; `Array.prototype.indexOf` (which compares with `===`) compares
  `oid`, while `find(el => el.id === inst.id)` compares the `id` getter.
* The two `Map`s `_types` and `_deleted` are created by the constructor over
  exactly the same keys (the configured type list), so they are modelled as
  one association list from type name to the pair (active container,
  deleted container).
* `localStorage` entries are modelled as explicit state: the `key-sync`
  entry is the `lastSync : Option Nat` field (absent = `none`, and the
  `_lastSync` getter turns absence into `0`); the `key-data` entry is the
  `dataCache` field.
* Timestamps (`Date.now()`) are passed in as explicit `Nat` arguments.
* `Array.prototype.sort(stdSort)` is modelled as a stable insertion sort
  driven by the comparator's sign, following the ECMAScript `SortCompare`
  semantics (a comparator result of `NaN` is mapped to `+0`, and the sort
  is stable, so all-equal comparisons leave the order unchanged).
-/

namespace DS

/-- A data record (`DSDataRecord` in src/unnamed/part_002): intrinsic fields
`_created` (also the `id` getter) and `_modified` (`0` = never modified).
`oid` models JavaScript reference identity; `typeName` is the name of the
record's constructor function (`inst.constructor.name`). The application
payload is outside the model. -/
structure DSDataRecord where
  oid : Nat
  typeName : String
  created : Nat
  modified : Nat
deriving DecidableEq, Repr

/-- The `id` getter: `get id() { return this._created; }`. -/
def DSDataRecord.id (r : DSDataRecord) : Nat := r.created

/-- A deleted-record literal (`DSDataDeletedRecord`): the object
`{_created: ..., _deleted: ...}` pushed by `_remove`. The `_deleted` field
is `Option Nat` because the source can store `undefined` there. Note these
are plain object literals: they do NOT have the `id` getter of
`DSDataRecord`. -/
structure DSDataDeletedRecord where
  created : Nat
  deleted : Option Nat
deriving DecidableEq, Repr

/-- Tombstone literals have no `id` property, so reading `.id` on them
yields `undefined`. -/
def DSDataDeletedRecord.jsId (_t : DSDataDeletedRecord) : Option Nat := none

/-- Errors thrown by the embedded operations (the `DSError` subclasses of
src/src/DSError.js that the modelled code paths can raise). -/
inductive DSErr where
  | addInvalidType          -- DSErrorAddInvalidType
  | addIDConflict           -- DSErrorAddIDConflict
  | replaceInvalidType      -- DSErrorReplaceInvalidType
  | replaceNoMatch          -- DSErrorReplaceNoMatch
  | removeTypeUndefined     -- TypeError: `container.indexOf` on undefined
  | removeNoMatch           -- DSErrorReplace thrown by `_remove` on no match
  | removeDeletedIDConflict -- DSErrorAdd thrown by `_remove`
  | reconcileNotImplemented -- DSErrorReconcile ("not yet implemented")
  | fromJSONUndefined       -- TypeError: reading `_created` of undefined
  | syncFail                -- DSErrorSyncFail
  | transport               -- XHR failure (DSErrorXhrPostRequest etc.)
  | writeLocal              -- DSErrorWriteLocalStorage
deriving DecidableEq, Repr

/-! ## The standard sort

`const stdSort = (a, b) => b.id - a.id;` used through
`container.sort(stdSort)`. ECMAScript `SortCompare` maps a `NaN` comparator
result to `+0`, and `Array.prototype.sort` is stable, so we model the sort
as a stable insertion sort on the comparator's sign. -/

/-- Stable insertion of `x` into `acc`: `x` is placed before the first
element `y` with `c x y < 0` (i.e. after all elements that compare equal
to it, which is what a stable sort does). -/
def insertStable {α : Type} (c : α → α → Int) (x : α) : List α → List α
  | [] => [x]
  | y :: ys => if c x y < 0 then x :: y :: ys else y :: insertStable c x ys

/-- Stable sort by a JavaScript comparator. -/
def sortJs {α : Type} (c : α → α → Int) (l : List α) : List α :=
  l.foldl (fun acc x => insertStable c x acc) []

/-- `stdSort` on `DSDataRecord`s: `b.id - a.id` (descending by `id`). -/
def stdSort (a b : DSDataRecord) : Int := (b.id : Int) - (a.id : Int)

/-- Sorting an active container: `container.sort(stdSort)`. -/
def sortRecords (l : List DSDataRecord) : List DSDataRecord := sortJs stdSort l

/-- `stdSort` on tombstone literals: both `.id` reads yield `undefined`,
`undefined - undefined` is `NaN`, and `SortCompare` maps `NaN` to `+0`, so
every comparison is "equal". -/
def stdSortDeleted (_a _b : DSDataDeletedRecord) : Int := 0

/-- Sorting a deleted container: `container.sort(stdSort)` over tombstone
literals. Because the comparator sees only `undefined` ids, this is the
all-equal comparator, and the stable sort leaves the order unchanged. -/
def sortDeleted (l : List DSDataDeletedRecord) : List DSDataDeletedRecord :=
  sortJs stdSortDeleted l

/-! ## The store state -/

/-- The `DataStorage` instance state together with its two `localStorage`
entries. `containers` merges the `_types` and `_deleted` maps (the
constructor defines both over exactly the configured type list, keyed by
the class object, here represented by the class name). -/
structure DataStorage where
  containers : List (String × (List DSDataRecord × List DSDataDeletedRecord))
  maxID : Nat
  lastSync : Option Nat
  dataCache : Option String
deriving DecidableEq, Repr

/-- `get _lastSync()`: returns `0` if `key-sync` is absent. -/
def DataStorage.getLastSync (st : DataStorage) : Nat := st.lastSync.getD 0

/-- Update the value stored at a key of an association list, keeping its
position (models in-place mutation of the array held in the `Map`). -/
def updateAssoc {α : Type} (l : List (String × α)) (k : String) (v : α) :
    List (String × α) :=
  match l with
  | [] => []
  | (k', v') :: rest =>
    if k' = k then (k, v) :: rest else (k', v') :: updateAssoc rest k v

/-- `container.indexOf(inst)`: `===` identity search, `-1` when absent. -/
def jsIndexOf (l : List DSDataRecord) (oid : Nat) : Int :=
  match l.findIdx? (fun el => el.oid == oid) with
  | some i => (i : Int)
  | none => -1

/-! ## ID assignment: `get _newID()` -/

/-- `get _newID()`:
```js
let id = Date.now();
if (id <= this._maxID) id = ++this._maxID;
return id;
```
Returns the new id and the updated state. Note `_maxID` is incremented
only in the `id <= _maxID` branch. -/
def DataStorage.newID (st : DataStorage) (now : Nat) : Nat × DataStorage :=
  if now ≤ st.maxID then
    (st.maxID + 1, { st with maxID := st.maxID + 1 })
  else
    (now, st)

/-! ## Store mutations: `_add`, `_replace`, `_remove` -/

/-- `_add(inst)`: validate the type, check for an identical instance
(`indexOf`, i.e. `===`) and for an id conflict, push, re-sort with
`stdSort`, update `_maxID`, and return the sorted index. -/
def DataStorage.add (st : DataStorage) (inst : DSDataRecord) :
    Except DSErr (DataStorage × Int) :=
  match st.containers.lookup inst.typeName with
  | none => .error .addInvalidType
  | some (active, dead) =>
    let exInd := active.findIdx? (fun el => el.oid == inst.oid)
    let idConflict := active.find? (fun el => el.id == inst.id)
    match exInd, idConflict with
    | some _, _ =>
      -- console.warn: already added, will not be added again
      let active' := sortRecords active
      let st' := { st with
        containers := updateAssoc st.containers inst.typeName (active', dead),
        maxID := if st.maxID < inst.id then inst.id else st.maxID }
      .ok (st', jsIndexOf active' inst.oid)
    | none, some _ => .error .addIDConflict
    | none, none =>
      let active' := sortRecords (active ++ [inst])
      let st' := { st with
        containers := updateAssoc st.containers inst.typeName (active', dead),
        maxID := if st.maxID < inst.id then inst.id else st.maxID }
      .ok (st', jsIndexOf active' inst.oid)

/-- `_replace(inst)`: find the existing record with the same `id`,
`splice(ind, 1, inst)`, re-sort, return the sorted index. -/
def DataStorage.replace (st : DataStorage) (inst : DSDataRecord) :
    Except DSErr (DataStorage × Int) :=
  match st.containers.lookup inst.typeName with
  | none => .error .replaceInvalidType
  | some (active, dead) =>
    match active.findIdx? (fun el => el.id == inst.id) with
    | none => .error .replaceNoMatch
    | some ind =>
      let active' := sortRecords (active.set ind inst)
      let st' := { st with
        containers := updateAssoc st.containers inst.typeName (active', dead) }
      .ok (st', jsIndexOf active' inst.oid)

/-- `_remove(inst, del = true)`: `indexOf` (reference) search,
`splice(ind, 1)`, and when `del` push `{_created: inst._created,
_deleted: inst._deleted}` to the deleted container and sort it. A
`DSDataRecord` has no `_deleted` property, so the pushed literal holds
`undefined` (`none`) there. The id-conflict check in the deleted container
compares `el.id === inst.id` where `el.id` is `undefined` on tombstone
literals, so it can never match. -/
def DataStorage.remove (st : DataStorage) (inst : DSDataRecord)
    (del : Bool := true) : Except DSErr (DataStorage × Nat) :=
  match st.containers.lookup inst.typeName with
  | none => .error .removeTypeUndefined
  | some (active, dead) =>
    match active.findIdx? (fun el => el.oid == inst.oid) with
    | none => .error .removeNoMatch
    | some ind =>
      let active' := active.eraseIdx ind
      if del then
        match dead.find? (fun el => el.jsId == some inst.id) with
        | some _ => .error .removeDeletedIDConflict
        | none =>
          let dead' := sortDeleted (dead ++ [⟨inst.created, none⟩])
          .ok ({ st with
            containers := updateAssoc st.containers inst.typeName (active', dead') },
            ind)
      else
        .ok ({ st with
          containers := updateAssoc st.containers inst.typeName (active', dead) },
          ind)

/-! ## Canonical serialization: `get _dataString()`

`JSON.stringify` of an object whose keys are the configured class names (in
`Map` insertion order) and whose values are the active containers; each
record serializes through its `toJSON()` method to `{_created}` or
`{_created, _modified}` (payload fields are outside the model). -/

/-- `toJSON()` of a record, serialized: `_modified` is emitted only when
truthy (nonzero). -/
def jsonOfRecord (r : DSDataRecord) : String :=
  if r.modified = 0 then
    "\x7b\"_created\":" ++ toString r.created ++ "\x7d"
  else
    "\x7b\"_created\":" ++ toString r.created ++
      ",\"_modified\":" ++ toString r.modified ++ "\x7d"

/-- Serialization of one active container (a JSON array). -/
def jsonOfContainer (l : List DSDataRecord) : String :=
  "[" ++ String.intercalate "," (l.map jsonOfRecord) ++ "]"

/-- `get _dataString()`: the canonical serialization hashed and written to
the local cache. -/
def DataStorage.dataString (st : DataStorage) : String :=
  "\x7b" ++
    String.intercalate ","
      (st.containers.map (fun e => "\"" ++ e.1 ++ "\":" ++ jsonOfContainer e.2.1)) ++
    "\x7d"

/-! ## The delta compiler (first half of `_reconcile`, lines 410-456)

Classifies local activity since `lastSync` into a type-and-rank index and
prunes empty partitions. -/

/-- Activity ranks (`DSDataActivityRank`). -/
inductive Rank where
  | new | modified | deleted | conflict
deriving DecidableEq, Repr

/-- The content stored under one rank key: an id-to-record object for
`new`/`modified`, an id-to-tombstone object for `deleted` (modelled as
association lists in insertion order). -/
inductive RankContent where
  | recs : List (Nat × DSDataRecord) → RankContent
  | tombs : List (Nat × DSDataDeletedRecord) → RankContent
deriving DecidableEq, Repr

/-- Records screened into `instances[key].new`:
`if (inst._created > lastSync)`. -/
def newOf (active : List DSDataRecord) (lastSync : Nat) :
    List (Nat × DSDataRecord) :=
  (active.filter (fun i => lastSync < i.created)).map (fun i => (i.id, i))

/-- Records screened into `instances[key].modified`:
`else if (inst._modified && inst._modified > lastSync)` — the `else` makes
`created ≤ lastSync` implicit, and `_modified` must be truthy (nonzero). -/
def modifiedOf (active : List DSDataRecord) (lastSync : Nat) :
    List (Nat × DSDataRecord) :=
  (active.filter (fun i =>
    !(lastSync < i.created) && !(i.modified == 0) && lastSync < i.modified)).map
    (fun i => (i.id, i))

/-- Tombstones screened into `instances[key].deleted`:
`if (inst._deleted > lastSync)`; a comparison against `undefined` is
`false`. -/
def deletedOf (dead : List DSDataDeletedRecord) (lastSync : Nat) :
    List (Nat × DSDataDeletedRecord) :=
  (dead.filter (fun t =>
    match t.deleted with
    | some d => lastSync < d
    | none => false)).map (fun t => (t.created, t))

/-- The per-type rank index with empty ranks pruned (`delete
instances[key].new` etc.). -/
def rankIndexOf (active : List DSDataRecord) (dead : List DSDataDeletedRecord)
    (lastSync : Nat) : List (Rank × RankContent) :=
  let n := newOf active lastSync
  let m := modifiedOf active lastSync
  let d := deletedOf dead lastSync
  (if n.isEmpty then [] else [(Rank.new, RankContent.recs n)]) ++
  (if m.isEmpty then [] else [(Rank.modified, RankContent.recs m)]) ++
  (if d.isEmpty then [] else [(Rank.deleted, RankContent.tombs d)])

/-- The compiled `instances` object: one entry per configured type, whole
types pruned when they produced no deltas
(`if (newCount === 0 && modCount === 0 && delCount === 0) delete ...`). -/
def compileInstances (st : DataStorage) (lastSync : Nat) :
    List (String × List (Rank × RankContent)) :=
  st.containers.filterMap (fun e =>
    let ri := rankIndexOf e.2.1 e.2.2 lastSync
    if ri.isEmpty then none else some (e.1, ri))

/-- Look up the content compiled for a given type and rank. -/
def lookupRank (ti : List (String × List (Rank × RankContent)))
    (ty : String) (rk : Rank) : Option RankContent :=
  (ti.lookup ty).bind (fun ri => ri.lookup rk)

/-- The record entries compiled for a given type and rank. -/
def recsOfRank (ti : List (String × List (Rank × RankContent)))
    (ty : String) (rk : Rank) : List (Nat × DSDataRecord) :=
  match lookupRank ti ty rk with
  | some (RankContent.recs l) => l
  | _ => []

/-- The tombstone entries compiled for a given type and rank. -/
def tombsOfRank (ti : List (String × List (Rank × RankContent)))
    (ty : String) (rk : Rank) : List (Nat × DSDataDeletedRecord) :=
  match lookupRank ti ty rk with
  | some (RankContent.tombs l) => l
  | _ => []

/-! ## Applying the server's reconciliation response (second half of
`_reconcile`, lines 476-525) -/

/-- A raw JSON record literal from the server response
(`DSDataJSONRecord`): `_created` plus optional `_modified`. -/
structure DSDataJSONRecord where
  created : Nat
  modified : Option Nat
deriving DecidableEq, Repr

/-- `DSDataRecord.fromJSON(jobj)`:
`inst._created = jobj._created; if (jobj._modified) inst._modified = ...`.
`oid` is the identity of the freshly allocated instance. -/
def DSDataRecord.fromJSON (oid : Nat) (tyName : String)
    (j : DSDataJSONRecord) : DSDataRecord :=
  { oid := oid, typeName := tyName, created := j.created,
    modified :=
      match j.modified with
      | some m => if m = 0 then 0 else m
      | none => 0 }

/-- One type's partition of the server's reconciliation response
(`result.data[type]`), with the four optional rank keys modelled as
association lists (an absent key is the empty list). -/
structure ServerRankIndex where
  newRecs : List (Nat × DSDataJSONRecord)
  modRecs : List (Nat × DSDataJSONRecord)
  delRecs : List (Nat × DSDataJSONRecord)
  conflictRecs : List (Nat × List DSDataJSONRecord)
deriving DecidableEq, Repr

/-- The `for (let id in localContainer.new)` loop: instantiate each entry
with `fromJSON` and `_add` it. A thrown error propagates, leaving the store
as mutated so far. `oid` is the allocation counter for fresh instances. -/
def applyNewLoop (tyName : String) :
    List (Nat × DSDataJSONRecord) → DataStorage → Nat →
    (DataStorage × Nat) × Option DSErr
  | [], st, oid => ((st, oid), none)
  | (_, j) :: rest, st, oid =>
    match st.add (DSDataRecord.fromJSON oid tyName j) with
    | .error e => ((st, oid), some e)
    | .ok (st', _) => applyNewLoop tyName rest st' (oid + 1)

/-- The `for (let id in localContainer.modified)` loop. The source builds
the replacement instance from `localContainer.new[id]` — not from
`localContainer.modified[id]` — so the entry's own record is ignored and
the lookup is made in the `new` partition; when that partition has no such
id, `fromJSON(undefined)` throws. -/
def applyModifiedLoop (tyName : String)
    (newPart : List (Nat × DSDataJSONRecord)) :
    List (Nat × DSDataJSONRecord) → DataStorage → Nat →
    (DataStorage × Nat) × Option DSErr
  | [], st, oid => ((st, oid), none)
  | (id, _) :: rest, st, oid =>
    match newPart.lookup id with
    | none => ((st, oid), some .fromJSONUndefined)
    | some j =>
      match st.replace (DSDataRecord.fromJSON oid tyName j) with
      | .error e => ((st, oid), some e)
      | .ok (st', _) => applyModifiedLoop tyName newPart rest st' (oid + 1)

/-- Apply one type's partition of the response: the `new` loop, then the
`modified` loop, then the `deleted` loop (which throws `DSErrorReconcile`
on its first entry: "Processing of deleted instances ... not yet
implemented"), then the `conflict` loop (which records the first conflict
and then throws `DSErrorReconcile` likewise). -/
def applyReconcileType (tyName : String) (ri : ServerRankIndex)
    (st : DataStorage) (oid : Nat) : (DataStorage × Nat) × Option DSErr :=
  match applyNewLoop tyName ri.newRecs st oid with
  | (p, some e) => (p, some e)
  | ((st1, oid1), none) =>
    match applyModifiedLoop tyName ri.newRecs ri.modRecs st1 oid1 with
    | (p, some e) => (p, some e)
    | ((st2, oid2), none) =>
      if ri.delRecs.isEmpty then
        if ri.conflictRecs.isEmpty then ((st2, oid2), none)
        else ((st2, oid2), some .reconcileNotImplemented)
      else ((st2, oid2), some .reconcileNotImplemented)

/-- The `for (let type in result.data)` loop over the whole response. -/
def applyReconcileData :
    List (String × ServerRankIndex) → DataStorage → Nat →
    (DataStorage × Nat) × Option DSErr
  | [], st, oid => ((st, oid), none)
  | (ty, ri) :: rest, st, oid =>
    match applyReconcileType ty ri st oid with
    | (p, some e) => (p, some e)
    | ((st', oid'), none) => applyReconcileData rest st' oid'

/-! ## The sync engine: `_sync` and its result types -/

/-- `DSReconcileResult`: `{hash, data}` as returned by the server's
`reconcile` query. -/
structure DSReconcileResult where
  hash : String
  data : List (String × ServerRankIndex)
deriving DecidableEq, Repr

/-- `DSSyncResult` with its hashes and the `sync` timestamp (set by the
`succeeds` getter at the moment the comparison first succeeds). -/
structure DSSyncResult where
  localHash : String
  remoteHash : String
  sync : Nat
deriving DecidableEq, Repr

/-- The `succeeds` getter: both hashes are strings (always true in the
model) and exactly equal under `===`. -/
def DSSyncResult.succeeds (r : DSSyncResult) : Bool :=
  r.localHash == r.remoteHash

/-- The `hash` getter: the remote digest when `succeeds`, else `''`. -/
def DSSyncResult.hashGet (r : DSSyncResult) : String :=
  if r.succeeds then r.remoteHash else ""

/-- The environment a `_sync` pass runs in: the outcome of the `hash`
query, the outcome of the `reconcile` query, whether the local-cache write
succeeds, the two `Date.now()` readings taken by the `succeeds` getter
(`t1` at the initial comparison, `t2` at the post-reconcile comparison),
and the base for fresh object identities allocated by `fromJSON`. -/
structure SyncEnv where
  remoteHashResp : Except Unit String
  reconcileResp : Except Unit DSReconcileResult
  writeOk : Bool
  t1 : Nat
  t2 : Nat
  oidBase : Nat
deriving Repr

/-- Resolution of the `remote` argument: use it if provided, otherwise the
response of a `{query: 'hash'}` POST. -/
def resolveRemote (ra : Option String) (env : SyncEnv) : Except Unit String :=
  match ra with
  | some r => .ok r
  | none => env.remoteHashResp

/-- The body of the `if (!result.succeeds)` block of `_sync`: run
`_reconcile` (fetch the server response and apply it; a throw inside the
loop propagates with the store as mutated so far), re-compare the updated
hashes (`sync.local = await this._hash()` against `sync.remote =
result.hash`), throw `DSErrorSyncFail` on mismatch, and otherwise write the
re-serialized store to `key-data`. -/
def DataStorage.syncReconcile (st : DataStorage) (hf : String → String)
    (env : SyncEnv) : DataStorage × Except DSErr DSSyncResult :=
  match env.reconcileResp with
  | .error _ => (st, .error .transport)
  | .ok resp =>
    match applyReconcileData resp.data st env.oidBase with
    | ((st1, _), some e) => (st1, .error e)
    | ((st1, _), none) =>
      let local2 := hf st1.dataString
      if local2 == resp.hash then
        if env.writeOk then
          ({ st1 with dataCache := some st1.dataString,
                      lastSync := some env.t2 },
           .ok { localHash := local2, remoteHash := resp.hash,
                 sync := env.t2 })
        else (st1, .error .writeLocal)
      else (st1, .error .syncFail)

/-- `_sync(local, remote)`, parameterized by the hash function `hf`
(modelling `DataStorage.hash`, SHA-256 to lowercase hex). Returns the
post-call state (even when an error is thrown mid-pass) and the outcome:

1. resolve `remote` (fetch on absence) and `local` (hash `_dataString` on
   absence);
2. if they compare equal, the `succeeds` getter stamps `sync = t1`, the
   engine persists `_lastSync = t1` and returns the frozen result;
3. otherwise fall into the reconciliation block (`syncReconcile`), which
   persists `_lastSync = t2` exactly when it ends in success. -/
def DataStorage.syncRun (st : DataStorage) (hf : String → String)
    (la ra : Option String) (env : SyncEnv) :
    DataStorage × Except DSErr DSSyncResult :=
  match resolveRemote ra env with
  | .error _ => (st, .error .transport)
  | .ok remote =>
    let localH := la.getD (hf st.dataString)
    if localH == remote then
      ({ st with lastSync := some env.t1 },
       .ok { localHash := localH, remoteHash := remote, sync := env.t1 })
    else
      st.syncReconcile hf env

/-! ## Local cache write and the decrypt guard -/

/-- `localStorage.setItem`. -/
def lsSetItem (m : List (String × String)) (k v : String) :
    List (String × String) :=
  match m with
  | [] => [(k, v)]
  | (k', v') :: rest =>
    if k' = k then (k, v) :: rest else (k', v') :: lsSetItem rest k v

/-- `static async write(key, data)` of src/src/DataStorage.js:
encrypt `data`, store the ciphertext under `key`, and return
`DataStorage.hash(data)` — the digest of the plaintext handed to
`encrypt`, not of the ciphertext. `encryptFn` and `hashFn` model
`DataStorage.encrypt` and `DataStorage.hash` (SHA-256 to lowercase hex);
`data` is taken already serialized. -/
def DataStorage.write (encryptFn hashFn : String → String)
    (ls : List (String × String)) (key data : String) :
    List (String × String) × String :=
  let str := encryptFn data
  (lsSetItem ls key str, hashFn data)

/-- An AES-GCM cipher container `{salt, iv, text}`; `none` models an
absent (`undefined`) property. -/
structure AesGcmCipher where
  salt : Option String
  iv : Option String
  text : Option String
deriving DecidableEq, Repr

/-- JavaScript truthiness of a possibly-absent string property. -/
def jsTruthy : Option String → Bool
  | none => false
  | some s => !s.isEmpty

/-- Where `decrypt` gets to with a given cipher object. -/
inductive DecryptStep where
  | missingFieldError
  | keyDerivation
deriving DecidableEq, Repr

/-- The field-presence guard at the top of `static async decrypt`:
`if (!cipher.salt && cipher.iv && cipher.text) throw new TypeError(...)`,
otherwise execution continues into `importKey`/`deriveKey`. -/
def decryptFieldCheck (c : AesGcmCipher) : DecryptStep :=
  if !(jsTruthy c.salt) && jsTruthy c.iv && jsTruthy c.text then
    .missingFieldError
  else
    .keyDerivation

/-! ## Concrete instances used by the evaluation theorems and witnesses -/

/-- A store managing one type `T` holding a single record
`{_created: 100}` (object identity 1). -/
def stOne : DataStorage :=
  { containers := [("T", ([⟨1, "T", 100, 0⟩], []))], maxID := 100,
    lastSync := none, dataCache := none }

/-- An empty store managing one type `T`. -/
def stEmpty : DataStorage :=
  { containers := [("T", ([], []))], maxID := 0,
    lastSync := none, dataCache := none }

/-- A store managing one type `T` with two records, `{_created: 200}`
(identity 1) and `{_created: 100}` (identity 2), sorted descending. -/
def stTwo : DataStorage :=
  { containers := [("T", ([⟨1, "T", 200, 0⟩, ⟨2, "T", 100, 0⟩], []))],
    maxID := 200, lastSync := none, dataCache := none }

/-- A reconciliation response partition whose only content is one record
under rank `deleted`. -/
def riDeletedOnly : ServerRankIndex :=
  { newRecs := [], modRecs := [], delRecs := [(100, ⟨100, some 400⟩)],
    conflictRecs := [] }

/-- A reconciliation response partition whose only content is one record
under rank `modified` (id 100, `_modified` 400). -/
def riModifiedOnly : ServerRankIndex :=
  { newRecs := [], modRecs := [(100, ⟨100, some 400⟩)], delRecs := [],
    conflictRecs := [] }

/-- A reconciliation response partition whose only content is one conflict
pair under rank `conflict`. -/
def riConflictOnly : ServerRankIndex :=
  { newRecs := [], modRecs := [], delRecs := [],
    conflictRecs := [(100, [⟨100, some 400⟩, ⟨100, some 500⟩])] }

/-- A reconciliation response partition whose only content is one record
under rank `new` (id 500). -/
def riNewOnly : ServerRankIndex :=
  { newRecs := [(500, ⟨500, none⟩)], modRecs := [], delRecs := [],
    conflictRecs := [] }

/-- A store with mixed activity: one record created at 200 (never
modified), one created at 100 and modified at 150, and one tombstone
`{_created: 50, _deleted: 130}`. -/
def stDelta : DataStorage :=
  { containers := [("T",
      ([⟨1, "T", 200, 0⟩, ⟨2, "T", 100, 150⟩], [⟨50, some 130⟩]))],
    maxID := 200, lastSync := none, dataCache := none }

/-- A 64-character lowercase-hex digest (the length of a SHA-256 hex
digest). -/
def hexDigest64 : String :=
  "aaaaaaaaaaaaaaaaaaaaaaaaaaaaaaaaaaaaaaaaaaaaaaaaaaaaaaaaaaaaaaaa"

/-- A sync environment where every remote interaction succeeds. -/
def envOk : SyncEnv :=
  { remoteHashResp := .ok hexDigest64,
    reconcileResp := .ok { hash := "", data := [] },
    writeOk := true, t1 := 11, t2 := 22, oidBase := 1000 }

/-- A sync environment where the `reconcile` query fails in transit. -/
def envReconcileFails : SyncEnv :=
  { remoteHashResp := .ok "ffff",
    reconcileResp := .error (),
    writeOk := true, t1 := 11, t2 := 22, oidBase := 1000 }

/-! ## Helper lemmas -/

theorem insertStable_append {α : Type} (c : α → α → Int) (x : α)
    (acc : List α) (h : ∀ y ∈ acc, ¬ c x y < 0) :
    insertStable c x acc = acc ++ [x] := by
  induction acc with
  | nil => rfl
  | cons y ys ih =>
    rw [insertStable, if_neg (h y (by simp))]
    simp only [List.cons_append, List.cons.injEq, true_and]
    exact ih (fun z hz => h z (by simp [hz]))

theorem foldl_insertStable_sorted {α : Type} (c : α → α → Int) :
    ∀ (l acc : List α), (∀ x ∈ l, ∀ y ∈ acc, ¬ c x y < 0) →
    l.Pairwise (fun a b => ¬ c b a < 0) →
    l.foldl (fun a x => insertStable c x a) acc = acc ++ l := by
  intro l
  induction l with
  | nil => intro acc _ _; simp
  | cons x xs ih =>
    intro acc hacc hpw
    rw [List.foldl_cons,
      insertStable_append c x acc (hacc x (by simp))]
    rw [List.pairwise_cons] at hpw
    rw [ih (acc ++ [x])
      (fun z hz y hy => by
        rcases List.mem_append.mp hy with hy' | hy'
        · exact hacc z (by simp [hz]) y hy'
        · simp only [List.mem_singleton] at hy'
          subst hy'
          exact hpw.1 z hz)
      hpw.2]
    simp

theorem sortRecords_eq_self (l : List DSDataRecord)
    (h : l.Pairwise (fun a b => b.id ≤ a.id)) : sortRecords l = l := by
  rw [sortRecords, sortJs,
    foldl_insertStable_sorted stdSort l [] (by simp)
      (h.imp (fun {a b} hba => by
        simp only [stdSort, not_lt]
        omega))]
  simp

theorem sortDeleted_eq_self (l : List DSDataDeletedRecord) :
    sortDeleted l = l := by
  rw [sortDeleted, sortJs,
    foldl_insertStable_sorted stdSortDeleted l [] (by simp [stdSortDeleted])
      (List.pairwise_iff_forall_sublist.mpr (fun _ => by
        simp [stdSortDeleted]))]
  simp

theorem updateAssoc_self {α : Type} (l : List (String × α)) (k : String)
    (v : α) (h : l.lookup k = some v) : updateAssoc l k v = l := by
  induction l with
  | nil => rfl
  | cons e rest ih =>
    obtain ⟨k', v'⟩ := e
    by_cases hk : k = k'
    · subst hk
      simp [List.lookup] at h
      simp [updateAssoc, h]
    · have hbeq : (k == k') = false := by simpa using hk
      simp only [List.lookup, hbeq] at h
      simp [updateAssoc, Ne.symm hk, ih h]

theorem findIdx?_isSome_of_mem {α : Type} {p : α → Bool} {l : List α}
    {x : α} (hx : x ∈ l) (hp : p x = true) : (l.findIdx? p).isSome := by
  induction l with
  | nil => simp at hx
  | cons y ys ih =>
    rcases List.mem_cons.mp hx with h | h
    · subst h
      simp [List.findIdx?, hp]
    · by_cases hy : p y
      · simp [List.findIdx?, hy]
      · simp only [List.findIdx?, hy]
        simpa [List.findIdx?_succ] using ih h

theorem lookup_lsSetItem (m : List (String × String)) (k v : String) :
    (lsSetItem m k v).lookup k = some v := by
  induction m with
  | nil => simp [lsSetItem, List.lookup]
  | cons e rest ih =>
    obtain ⟨k', v'⟩ := e
    by_cases hk : k' = k
    · subst hk
      simp [lsSetItem, List.lookup]
    · simp [lsSetItem, hk, List.lookup, Ne.symm hk, ih,
        show (k == k') = false by simpa using Ne.symm hk]

theorem newID_fst (st : DataStorage) (now : Nat) :
    (st.newID now).1 = max now (st.maxID + 1) := by
  simp only [DataStorage.newID]
  split <;> omega

theorem add_maxID_ge {st st' : DataStorage} {inst : DSDataRecord} {i : Int}
    (h : st.add inst = .ok (st', i)) : inst.id ≤ st'.maxID := by
  unfold DataStorage.add at h
  cases hlk : st.containers.lookup inst.typeName with
  | none => rw [hlk] at h; exact absurd h (by simp)
  | some p =>
    obtain ⟨a, dd⟩ := p
    rw [hlk] at h
    cases hex : a.findIdx? (fun el => el.oid == inst.oid) with
    | some k =>
      simp only [hex] at h
      simp only [Except.ok.injEq, Prod.mk.injEq] at h
      obtain ⟨h1, -⟩ := h
      rw [← h1]
      simp only
      split <;> omega
    | none =>
      cases hcf : a.find? (fun el => el.id == inst.id) with
      | some q => simp only [hex, hcf] at h; exact absurd h (by simp)
      | none =>
        simp only [hex, hcf] at h
        simp only [Except.ok.injEq, Prod.mk.injEq] at h
        obtain ⟨h1, -⟩ := h
        rw [← h1]
        simp only
        split <;> omega

theorem mem_of_lookup_eq_some {α : Type} {l : List (String × α)}
    {k : String} {v : α} (h : l.lookup k = some v) : (k, v) ∈ l := by
  induction l with
  | nil => simp [List.lookup] at h
  | cons e rest ih =>
    obtain ⟨k', v'⟩ := e
    by_cases hk : k = k'
    · subst hk
      simp [List.lookup] at h
      simp [h]
    · have hbeq : (k == k') = false := by simpa using hk
      simp only [List.lookup, hbeq] at h
      exact List.mem_cons_of_mem _ (ih h)

theorem rankIndexOf_lookup_new (a : List DSDataRecord)
    (dd : List DSDataDeletedRecord) (s : Nat) :
    (rankIndexOf a dd s).lookup Rank.new =
      if (newOf a s).isEmpty then none
      else some (RankContent.recs (newOf a s)) := by
  unfold rankIndexOf
  cases h1 : (newOf a s).isEmpty <;>
    cases h2 : (modifiedOf a s).isEmpty <;>
      cases h3 : (deletedOf dd s).isEmpty <;>
        simp only [h1, h2, h3, if_true, if_false, Bool.false_eq_true,
          List.nil_append, List.append_nil, List.cons_append] <;> rfl

theorem rankIndexOf_lookup_modified (a : List DSDataRecord)
    (dd : List DSDataDeletedRecord) (s : Nat) :
    (rankIndexOf a dd s).lookup Rank.modified =
      if (modifiedOf a s).isEmpty then none
      else some (RankContent.recs (modifiedOf a s)) := by
  unfold rankIndexOf
  cases h1 : (newOf a s).isEmpty <;>
    cases h2 : (modifiedOf a s).isEmpty <;>
      cases h3 : (deletedOf dd s).isEmpty <;>
        simp only [h1, h2, h3, if_true, if_false, Bool.false_eq_true,
          List.nil_append, List.append_nil, List.cons_append] <;> rfl

theorem rankIndexOf_lookup_deleted (a : List DSDataRecord)
    (dd : List DSDataDeletedRecord) (s : Nat) :
    (rankIndexOf a dd s).lookup Rank.deleted =
      if (deletedOf dd s).isEmpty then none
      else some (RankContent.tombs (deletedOf dd s)) := by
  unfold rankIndexOf
  cases h1 : (newOf a s).isEmpty <;>
    cases h2 : (modifiedOf a s).isEmpty <;>
      cases h3 : (deletedOf dd s).isEmpty <;>
        simp only [h1, h2, h3, if_true, if_false, Bool.false_eq_true,
          List.nil_append, List.append_nil, List.cons_append] <;> rfl

theorem rankIndexOf_lookup_conflict (a : List DSDataRecord)
    (dd : List DSDataDeletedRecord) (s : Nat) :
    (rankIndexOf a dd s).lookup Rank.conflict = none := by
  unfold rankIndexOf
  cases h1 : (newOf a s).isEmpty <;>
    cases h2 : (modifiedOf a s).isEmpty <;>
      cases h3 : (deletedOf dd s).isEmpty <;>
        simp only [h1, h2, h3, if_true, if_false, Bool.false_eq_true,
          List.nil_append, List.append_nil, List.cons_append] <;> rfl

theorem rankIndexOf_isEmpty (a : List DSDataRecord)
    (dd : List DSDataDeletedRecord) (s : Nat)
    (h : (rankIndexOf a dd s).isEmpty = true) :
    newOf a s = [] ∧ modifiedOf a s = [] ∧ deletedOf dd s = [] := by
  unfold rankIndexOf at h
  cases h1 : (newOf a s).isEmpty <;>
    cases h2 : (modifiedOf a s).isEmpty <;>
      cases h3 : (deletedOf dd s).isEmpty <;>
        simp only [h1, h2, h3, if_true, if_false, Bool.false_eq_true,
          List.nil_append, List.append_nil, List.cons_append] at h <;>
        first
        | exact ⟨List.isEmpty_iff.mp h1, List.isEmpty_iff.mp h2,
            List.isEmpty_iff.mp h3⟩
        | simp at h

theorem lookup_compile_filterMap_none (s : Nat) (ty : String)
    (rest : List (String × (List DSDataRecord × List DSDataDeletedRecord)))
    (h : ty ∉ rest.map Prod.fst) :
    (rest.filterMap (fun e =>
      let ri := rankIndexOf e.2.1 e.2.2 s
      if ri.isEmpty then none else some (e.1, ri))).lookup ty = none := by
  induction rest with
  | nil => rfl
  | cons e tail ih =>
    obtain ⟨k, v⟩ := e
    simp only [List.map_cons, List.mem_cons] at h
    push_neg at h
    obtain ⟨hne, htail⟩ := h
    rw [List.filterMap_cons]
    cases hri : (rankIndexOf v.1 v.2 s).isEmpty
    · simp only [hri, Bool.false_eq_true, if_false]
      have hbeq : (ty == k) = false := by simpa using hne
      simp only [List.lookup, hbeq]
      exact ih htail
    · simp only [hri, if_true]
      exact ih htail

theorem compileInstances_lookup (st : DataStorage) (s : Nat) (ty : String)
    (a : List DSDataRecord) (dd : List DSDataDeletedRecord)
    (hnd : (st.containers.map Prod.fst).Nodup)
    (hlk : st.containers.lookup ty = some (a, dd)) :
    (compileInstances st s).lookup ty =
      if (rankIndexOf a dd s).isEmpty then none
      else some (rankIndexOf a dd s) := by
  unfold compileInstances
  revert hnd hlk
  induction st.containers with
  | nil => intro _ hlk; simp [List.lookup] at hlk
  | cons e rest ih =>
    intro hnd hlk
    obtain ⟨k, v⟩ := e
    simp only [List.map_cons, List.nodup_cons] at hnd
    by_cases hk : ty = k
    · subst hk
      simp only [List.lookup, beq_self_eq_true] at hlk
      obtain rfl : v = (a, dd) := by simpa using hlk
      rw [List.filterMap_cons]
      cases hri : (rankIndexOf a dd s).isEmpty
      · simp only [hri, Bool.false_eq_true, if_false]
        simp only [List.lookup, beq_self_eq_true]
      · simp only [hri, if_true]
        exact lookup_compile_filterMap_none s ty rest hnd.1
    · have hbeq : (ty == k) = false := by simpa using hk
      simp only [List.lookup, hbeq] at hlk
      rw [List.filterMap_cons]
      cases hri : (rankIndexOf v.1 v.2 s).isEmpty
      · simp only [hri, Bool.false_eq_true, if_false]
        simp only [List.lookup, hbeq]
        exact ih hnd.2 hlk
      · simp only [hri, if_true]
        exact ih hnd.2 hlk

theorem mem_newOf_iff (a : List DSDataRecord) (s : Nat) (r : DSDataRecord) :
    (r.id, r) ∈ newOf a s ↔ r ∈ a ∧ s < r.created := by
  simp only [newOf, List.mem_map, List.mem_filter]
  constructor
  · rintro ⟨x, ⟨hxa, hxc⟩, hpair⟩
    obtain rfl : x = r := congrArg Prod.snd hpair
    exact ⟨hxa, by simpa using hxc⟩
  · rintro ⟨ha, hc⟩
    exact ⟨r, ⟨ha, by simpa using hc⟩, rfl⟩

theorem mem_modifiedOf_iff (a : List DSDataRecord) (s : Nat)
    (r : DSDataRecord) :
    (r.id, r) ∈ modifiedOf a s ↔
      r ∈ a ∧ r.created ≤ s ∧ r.modified ≠ 0 ∧ s < r.modified := by
  simp only [modifiedOf, List.mem_map, List.mem_filter]
  constructor
  · rintro ⟨x, ⟨hxa, hxc⟩, hpair⟩
    obtain rfl : x = r := congrArg Prod.snd hpair
    refine ⟨hxa, ?_⟩
    simp only [Bool.and_eq_true, Bool.not_eq_true', decide_eq_false_iff_not,
      not_lt, beq_eq_false_iff_ne, ne_eq, decide_eq_true_eq] at hxc
    exact ⟨hxc.1.1, hxc.1.2, hxc.2⟩
  · rintro ⟨ha, h1, h2, h3⟩
    refine ⟨r, ⟨ha, ?_⟩, rfl⟩
    simp only [Bool.and_eq_true, Bool.not_eq_true', decide_eq_false_iff_not,
      not_lt, beq_eq_false_iff_ne, ne_eq, decide_eq_true_eq]
    exact ⟨⟨h1, h2⟩, h3⟩

theorem mem_deletedOf_iff (dd : List DSDataDeletedRecord) (s : Nat)
    (t : DSDataDeletedRecord) :
    (t.created, t) ∈ deletedOf dd s ↔
      t ∈ dd ∧ ∃ d, t.deleted = some d ∧ s < d := by
  simp only [deletedOf, List.mem_map, List.mem_filter]
  constructor
  · rintro ⟨x, ⟨hxa, hxc⟩, hpair⟩
    have hx : x = t := congrArg Prod.snd hpair
    rw [hx] at hxa hxc
    refine ⟨hxa, ?_⟩
    cases hdel : t.deleted with
    | none => rw [hdel] at hxc; simp at hxc
    | some d =>
      rw [hdel] at hxc
      exact ⟨d, rfl, by simpa using hxc⟩
  · rintro ⟨ha, d, hdel, hd⟩
    refine ⟨t, ⟨ha, ?_⟩, rfl⟩
    rw [hdel]
    simpa using hd

theorem recsOfRank_new_eq (st : DataStorage) (s : Nat) (ty : String)
    (a : List DSDataRecord) (dd : List DSDataDeletedRecord)
    (hnd : (st.containers.map Prod.fst).Nodup)
    (hlk : st.containers.lookup ty = some (a, dd)) :
    recsOfRank (compileInstances st s) ty Rank.new = newOf a s := by
  rw [recsOfRank, lookupRank, compileInstances_lookup st s ty a dd hnd hlk]
  cases hri : (rankIndexOf a dd s).isEmpty
  · simp only [Bool.false_eq_true, if_false, Option.some_bind,
      rankIndexOf_lookup_new]
    cases hne : (newOf a s).isEmpty
    · simp
    · simp [List.isEmpty_iff.mp hne]
  · simp only [if_true, Option.none_bind]
    exact ((rankIndexOf_isEmpty a dd s hri).1).symm

theorem recsOfRank_modified_eq (st : DataStorage) (s : Nat) (ty : String)
    (a : List DSDataRecord) (dd : List DSDataDeletedRecord)
    (hnd : (st.containers.map Prod.fst).Nodup)
    (hlk : st.containers.lookup ty = some (a, dd)) :
    recsOfRank (compileInstances st s) ty Rank.modified = modifiedOf a s := by
  rw [recsOfRank, lookupRank, compileInstances_lookup st s ty a dd hnd hlk]
  cases hri : (rankIndexOf a dd s).isEmpty
  · simp only [Bool.false_eq_true, if_false, Option.some_bind,
      rankIndexOf_lookup_modified]
    cases hne : (modifiedOf a s).isEmpty
    · simp
    · simp [List.isEmpty_iff.mp hne]
  · simp only [if_true, Option.none_bind]
    exact ((rankIndexOf_isEmpty a dd s hri).2.1).symm

theorem tombsOfRank_deleted_eq (st : DataStorage) (s : Nat) (ty : String)
    (a : List DSDataRecord) (dd : List DSDataDeletedRecord)
    (hnd : (st.containers.map Prod.fst).Nodup)
    (hlk : st.containers.lookup ty = some (a, dd)) :
    tombsOfRank (compileInstances st s) ty Rank.deleted = deletedOf dd s := by
  rw [tombsOfRank, lookupRank, compileInstances_lookup st s ty a dd hnd hlk]
  cases hri : (rankIndexOf a dd s).isEmpty
  · simp only [Bool.false_eq_true, if_false, Option.some_bind,
      rankIndexOf_lookup_deleted]
    cases hne : (deletedOf dd s).isEmpty
    · simp
    · simp [List.isEmpty_iff.mp hne]
  · simp only [if_true, Option.none_bind]
    exact ((rankIndexOf_isEmpty a dd s hri).2.2).symm

theorem lookupRank_conflict_none (st : DataStorage) (s : Nat) (ty : String) :
    lookupRank (compileInstances st s) ty Rank.conflict = none := by
  rw [lookupRank]
  cases hl : (compileInstances st s).lookup ty with
  | none => rfl
  | some ri =>
    simp only [Option.some_bind]
    have hmem := mem_of_lookup_eq_some hl
    unfold compileInstances at hmem
    rw [List.mem_filterMap] at hmem
    obtain ⟨e, -, he⟩ := hmem
    by_cases hri : (rankIndexOf e.2.1 e.2.2 s).isEmpty
    · simp [hri] at he
    · simp only [hri, if_false] at he
      obtain ⟨-, rfl⟩ : e.1 = ty ∧ rankIndexOf e.2.1 e.2.2 s = ri := by
        constructor <;> [exact congrArg Prod.fst (Option.some.inj he);
          exact congrArg Prod.snd (Option.some.inj he)]
      exact rankIndexOf_lookup_conflict e.2.1 e.2.2 s

theorem add_lastSync {st st' : DataStorage} {inst : DSDataRecord} {i : Int}
    (h : st.add inst = .ok (st', i)) : st'.lastSync = st.lastSync := by
  unfold DataStorage.add at h
  cases hlk : st.containers.lookup inst.typeName with
  | none => rw [hlk] at h; exact absurd h (by simp)
  | some p =>
    obtain ⟨a, dd⟩ := p
    rw [hlk] at h
    cases hex : a.findIdx? (fun el => el.oid == inst.oid) with
    | some k =>
      simp only [hex, Except.ok.injEq, Prod.mk.injEq] at h
      obtain ⟨h1, -⟩ := h
      rw [← h1]
    | none =>
      cases hcf : a.find? (fun el => el.id == inst.id) with
      | some q => simp only [hex, hcf] at h; exact absurd h (by simp)
      | none =>
        simp only [hex, hcf, Except.ok.injEq, Prod.mk.injEq] at h
        obtain ⟨h1, -⟩ := h
        rw [← h1]

theorem replace_lastSync {st st' : DataStorage} {inst : DSDataRecord}
    {i : Int} (h : st.replace inst = .ok (st', i)) :
    st'.lastSync = st.lastSync := by
  unfold DataStorage.replace at h
  cases hlk : st.containers.lookup inst.typeName with
  | none => rw [hlk] at h; exact absurd h (by simp)
  | some p =>
    obtain ⟨a, dd⟩ := p
    rw [hlk] at h
    cases hix : a.findIdx? (fun el => el.id == inst.id) with
    | none => simp only [hix] at h; exact absurd h (by simp)
    | some ind =>
      simp only [hix, Except.ok.injEq, Prod.mk.injEq] at h
      obtain ⟨h1, -⟩ := h
      rw [← h1]

theorem remove_lastSync {st st' : DataStorage} {inst : DSDataRecord}
    {del : Bool} {i : Nat} (h : st.remove inst del = .ok (st', i)) :
    st'.lastSync = st.lastSync := by
  unfold DataStorage.remove at h
  cases hlk : st.containers.lookup inst.typeName with
  | none => rw [hlk] at h; exact absurd h (by simp)
  | some p =>
    obtain ⟨a, dd⟩ := p
    rw [hlk] at h
    cases hix : a.findIdx? (fun el => el.oid == inst.oid) with
    | none => simp only [hix] at h; exact absurd h (by simp)
    | some ind =>
      simp only [hix] at h
      cases del with
      | false =>
        simp only [Bool.false_eq_true, if_false, Except.ok.injEq,
          Prod.mk.injEq] at h
        obtain ⟨h1, -⟩ := h
        rw [← h1]
      | true =>
        simp only [if_true] at h
        cases hfd : dd.find? (fun el => el.jsId == some inst.id) with
        | some q => simp only [hfd] at h; exact absurd h (by simp)
        | none =>
          simp only [hfd, Except.ok.injEq, Prod.mk.injEq] at h
          obtain ⟨h1, -⟩ := h
          rw [← h1]

theorem applyNewLoop_lastSync (ty : String)
    (l : List (Nat × DSDataJSONRecord)) :
    ∀ (st : DataStorage) (oid : Nat),
    ((applyNewLoop ty l st oid).1.1).lastSync = st.lastSync := by
  induction l with
  | nil => intro st oid; rfl
  | cons e rest ih =>
    intro st oid
    obtain ⟨id, j⟩ := e
    simp only [applyNewLoop]
    cases hadd : st.add (DSDataRecord.fromJSON oid ty j) with
    | error e' => rfl
    | ok p =>
      obtain ⟨st1, i⟩ := p
      simp only
      rw [ih st1 (oid + 1), add_lastSync hadd]

theorem applyModifiedLoop_lastSync (ty : String)
    (newPart : List (Nat × DSDataJSONRecord))
    (l : List (Nat × DSDataJSONRecord)) :
    ∀ (st : DataStorage) (oid : Nat),
    ((applyModifiedLoop ty newPart l st oid).1.1).lastSync = st.lastSync := by
  induction l with
  | nil => intro st oid; rfl
  | cons e rest ih =>
    intro st oid
    obtain ⟨id, j⟩ := e
    simp only [applyModifiedLoop]
    cases hnp : newPart.lookup id with
    | none => rfl
    | some j' =>
      simp only
      cases hrep : st.replace (DSDataRecord.fromJSON oid ty j') with
      | error e' => rfl
      | ok p =>
        obtain ⟨st1, i⟩ := p
        simp only
        rw [ih st1 (oid + 1), replace_lastSync hrep]

theorem applyReconcileType_lastSync (ty : String) (ri : ServerRankIndex)
    (st : DataStorage) (oid : Nat) :
    ((applyReconcileType ty ri st oid).1.1).lastSync = st.lastSync := by
  unfold applyReconcileType
  cases hn : applyNewLoop ty ri.newRecs st oid with
  | mk p err =>
    obtain ⟨st1, oid1⟩ := p
    have h1 : st1.lastSync = st.lastSync := by
      have := applyNewLoop_lastSync ty ri.newRecs st oid
      rw [hn] at this
      exact this
    cases err with
    | some e => simpa using h1
    | none =>
      simp only
      cases hm : applyModifiedLoop ty ri.newRecs ri.modRecs st1 oid1 with
      | mk q err2 =>
        obtain ⟨st2, oid2⟩ := q
        have h2 : st2.lastSync = st1.lastSync := by
          have := applyModifiedLoop_lastSync ty ri.newRecs ri.modRecs st1 oid1
          rw [hm] at this
          exact this
        cases err2 with
        | some e => simp only; exact h2.trans h1
        | none =>
          simp only
          cases ri.delRecs.isEmpty <;> cases ri.conflictRecs.isEmpty <;>
            simp only [if_true, if_false, Bool.false_eq_true] <;>
            exact h2.trans h1

theorem applyReconcileData_lastSync
    (l : List (String × ServerRankIndex)) :
    ∀ (st : DataStorage) (oid : Nat),
    ((applyReconcileData l st oid).1.1).lastSync = st.lastSync := by
  induction l with
  | nil => intro st oid; rfl
  | cons e rest ih =>
    intro st oid
    obtain ⟨ty, ri⟩ := e
    simp only [applyReconcileData]
    cases ht : applyReconcileType ty ri st oid with
    | mk p err =>
      obtain ⟨st1, oid1⟩ := p
      have h1 : st1.lastSync = st.lastSync := by
        have := applyReconcileType_lastSync ty ri st oid
        rw [ht] at this
        exact this
      cases err with
      | some e' => simpa using h1
      | none => simp only; rw [ih st1 oid1, h1]

theorem syncReconcile_lastSync_spec (st : DataStorage)
    (hf : String → String) (env : SyncEnv) :
    ((st.syncReconcile hf env).2.isOk = false ∧
      (st.syncReconcile hf env).1.lastSync = st.lastSync)
    ∨ (∃ res, (st.syncReconcile hf env).2 = .ok res ∧
      (st.syncReconcile hf env).1.lastSync = some res.sync) := by
  unfold DataStorage.syncReconcile
  cases hrc : env.reconcileResp with
  | error u => left; exact ⟨rfl, rfl⟩
  | ok resp =>
    dsimp only
    rcases happ : applyReconcileData resp.data st env.oidBase with
      ⟨⟨st1, oidx⟩, err⟩
    have hls : st1.lastSync = st.lastSync := by
      have hgen := applyReconcileData_lastSync resp.data st env.oidBase
      rw [happ] at hgen
      exact hgen
    cases err with
    | some e => left; exact ⟨rfl, hls⟩
    | none =>
      dsimp only
      cases hcmp : (hf st1.dataString == resp.hash) with
      | false =>
        left
        simp only [hcmp, Bool.false_eq_true, if_false]
        exact ⟨rfl, hls⟩
      | true =>
        cases hwk : env.writeOk with
        | false =>
          left
          simp only [hcmp, if_true, hwk, Bool.false_eq_true, if_false]
          exact ⟨rfl, hls⟩
        | true =>
          right
          refine ⟨⟨hf st1.dataString, resp.hash, env.t2⟩, ?_, ?_⟩ <;>
            simp only [hcmp, hwk, if_true]

theorem syncRun_lastSync_spec (st : DataStorage) (hf : String → String)
    (la ra : Option String) (env : SyncEnv) :
    ((st.syncRun hf la ra env).2.isOk = false ∧
      (st.syncRun hf la ra env).1.lastSync = st.lastSync)
    ∨ (∃ res, (st.syncRun hf la ra env).2 = .ok res ∧
      (st.syncRun hf la ra env).1.lastSync = some res.sync) := by
  unfold DataStorage.syncRun
  cases hres : resolveRemote ra env with
  | error u => left; exact ⟨rfl, rfl⟩
  | ok remote =>
    dsimp only
    cases heq : (la.getD (hf st.dataString) == remote) with
    | true =>
      right
      refine ⟨⟨la.getD (hf st.dataString), remote, env.t1⟩, ?_, ?_⟩ <;>
        simp only [heq, if_true]
    | false =>
      simp only [heq, Bool.false_eq_true, if_false]
      exact syncReconcile_lastSync_spec st hf env

/-! ## Claim theorems -/

/-- C1: the Reconciling step is claimed to add every returned `new` record,
replace every `modified` one, remove every `deleted` one with a tombstone,
and collect `conflict` records without mutating the store. Evaluating the
embedded application loop shows the code diverges: a response carrying a
record only under rank `deleted` makes `_reconcile` throw
`DSErrorReconcile` ("not yet implemented") and leaves the store
unchanged instead of calling `_remove`; a record under rank `modified`
whose id is not also under `new` makes the loop read
`localContainer.new[id]` (undefined) and fail in `fromJSON`; a record
under rank `conflict` is recorded and then `DSErrorReconcile` is thrown
rather than the conflict being merely collected. Only the `new` rank is
applied as claimed (last conjunct). -/
theorem claim_C1_reconcile_apply_eval :
    applyReconcileData [("T", riDeletedOnly)] stOne 50 =
      ((stOne, 50), some DSErr.reconcileNotImplemented)
    ∧ applyReconcileData [("T", riModifiedOnly)] stOne 50 =
      ((stOne, 50), some DSErr.fromJSONUndefined)
    ∧ applyReconcileData [("T", riConflictOnly)] stOne 50 =
      ((stOne, 50), some DSErr.reconcileNotImplemented)
    ∧ applyReconcileData [("T", riNewOnly)] stOne 50 =
      (({ stOne with
          containers := [("T", ([⟨50, "T", 500, 0⟩, ⟨1, "T", 100, 0⟩], []))],
          maxID := 500 }, 51), none) := by
  decide

/-- C3 counterexample: the claim states every `newId()` call "advances
maxId to that returned value". On a store with `maxId = 0`, calling
`_newID` at time 5 returns 5 but leaves `maxId` at 0 (the source only
increments `_maxID` in the `id <= _maxID` branch), so the returned value
and the post-call `maxId` differ. -/
theorem claim_C3_counterexample :
    (stEmpty.newID 5).1 = 5 ∧ (stEmpty.newID 5).2.maxID = 0
    ∧ ¬ (stEmpty.newID 5).2.maxID = (stEmpty.newID 5).1 := by
  decide

/-- C4: `remove` with the tombstone flag is claimed to append a tombstone
whose `deleted` field is the current timestamp. Evaluating the embedded
`_remove` on a present record shows the appended tombstone is
`{_created: 100, _deleted: undefined}` — the source pushes
`inst._deleted`, a property a `DSDataRecord` does not have, and never
consults a clock — diverging from the claimed `deleted: now()`. The
no-match half of the claim holds: removing an absent record fails with the
no-match error and (the throw happening before any splice) leaves the
containers unchanged. -/
theorem claim_C4_remove_eval :
    stOne.remove ⟨1, "T", 100, 0⟩ true =
      .ok ({ stOne with containers := [("T", ([], [⟨100, none⟩]))] }, 0)
    ∧ stOne.remove ⟨9, "T", 999, 0⟩ true = .error DSErr.removeNoMatch :=
  ⟨rfl, rfl⟩

/-- C7: `decrypt` is claimed to fail when any of `salt`, `iv`, `text` is
missing, before key derivation. The source's guard is
`if (!cipher.salt && cipher.iv && cipher.text) throw ...`, which fires
only when `salt` is missing while `iv` and `text` are both present:
a cipher missing `iv` (first conjunct) or missing both `salt` and `iv`
(second conjunct) sails past the guard into key derivation. Only the
salt-missing-with-others-present case is caught (third conjunct). -/
theorem claim_C7_decrypt_guard_eval :
    decryptFieldCheck ⟨some "00aa11bb", none, some "ccdd"⟩ =
      DecryptStep.keyDerivation
    ∧ decryptFieldCheck ⟨none, none, some "ccdd"⟩ =
      DecryptStep.keyDerivation
    ∧ decryptFieldCheck ⟨none, some "001122334455667788990011", some "ccdd"⟩ =
      DecryptStep.missingFieldError := by
  decide

/-- C8: after mutations every typed container is claimed to be strictly
decreasing in `created` — including the tombstone container touched by
`remove`. But `stdSort` compares the `id` getter, which tombstone literals
do not have: the comparator evaluates `undefined - undefined = NaN`, which
ECMAScript `SortCompare` maps to `+0`, so the (stable) sort leaves the
tombstone container in insertion order. Removing the record created at 100
and then the record created at 200 leaves the tombstone container in
ascending `created` order, violating the invariant. -/
theorem claim_C8_tombstone_sort_eval :
    ((stTwo.remove ⟨2, "T", 100, 0⟩ true).bind
        (fun p => p.1.remove ⟨1, "T", 200, 0⟩ true)) =
      .ok ({ stTwo with
        containers := [("T", ([], [⟨100, none⟩, ⟨200, none⟩]))] }, 0)
    ∧ ¬ ([⟨100, none⟩, ⟨200, none⟩] : List DSDataDeletedRecord).Pairwise
        (fun a b => b.created < a.created) :=
  ⟨rfl, by decide⟩

/-- C3 (amended): `newId()` returns `max(now(), maxId + 1)`; `maxId` is
advanced only when `now() ≤ maxId` (otherwise it is left unchanged and is
raised later by `add`); and for any `newId()` whose returned ID is then
`add`ed (the save-pipeline pattern), the next `newId()` — at any clock
reading, even one that went backwards — returns a strictly larger ID. -/
theorem claim_C3_newID_amended :
    (∀ (st : DataStorage) (now : Nat),
      (st.newID now).1 = max now (st.maxID + 1))
    ∧ (∀ (st : DataStorage) (now : Nat),
      (st.newID now).2.maxID =
        if now ≤ st.maxID then st.maxID + 1 else st.maxID)
    ∧ (∀ (st st2 : DataStorage) (now1 now2 : Nat) (r : DSDataRecord)
        (i : Int),
      r.created = (st.newID now1).1 →
      ((st.newID now1).2).add r = .ok (st2, i) →
      (st.newID now1).1 < (st2.newID now2).1) := by
  refine ⟨newID_fst, ?_, ?_⟩
  · intro st now
    simp only [DataStorage.newID]
    split <;> simp
  · intro st st2 now1 now2 r i hc hadd
    have hmax : r.id ≤ st2.maxID := add_maxID_ge hadd
    have hid : r.id = r.created := rfl
    rw [newID_fst st2 now2]
    omega

/-- Witness for C3 (amended): a record created from `newId()` at time 5 on
an empty store and `add`ed; the next `newId()` (even at a later clock
reading 7 with `maxId = 5`) returns a strictly larger ID. -/
theorem claim_C3_newID_amended_witness :
    (stEmpty.newID 5).1 <
      ((⟨[("T", ([⟨1, "T", 5, 0⟩], []))], 5, none, none⟩ :
        DataStorage).newID 7).1 :=
  claim_C3_newID_amended.2.2 stEmpty _ 5 7 ⟨1, "T", 5, 0⟩ 0 rfl rfl

/-- C10: calling `_add` with a record object that is already an element of
its type's container (the `container.indexOf(inst) >= 0` branch) does not
insert it again, throws no error, and returns the record's existing index;
the resulting state differs from the input state at most in `maxID`, so
the container contents are untouched. Hypotheses: the record's type has a
container, the very instance (by object identity) is in it, and the
container satisfies the descending-sort invariant (so that the re-sort is
the identity). -/
theorem claim_C10_add_idempotent (st : DataStorage) (inst : DSDataRecord)
    (a : List DSDataRecord) (dd : List DSDataDeletedRecord)
    (hlk : st.containers.lookup inst.typeName = some (a, dd))
    (hmem : inst ∈ a)
    (hsorted : a.Pairwise (fun x y => y.id ≤ x.id)) :
    st.add inst =
      .ok ({ st with
        maxID := if st.maxID < inst.id then inst.id else st.maxID },
        jsIndexOf a inst.oid) := by
  have hfind : (a.findIdx? (fun el => el.oid == inst.oid)).isSome :=
    findIdx?_isSome_of_mem hmem (by simp)
  obtain ⟨k, hk⟩ := Option.isSome_iff_exists.mp hfind
  simp only [DataStorage.add, hlk, hk]
  rw [sortRecords_eq_self a hsorted,
    updateAssoc_self st.containers inst.typeName (a, dd) hlk]

/-- Witness for C10: re-adding the single record of `stOne` leaves the
container as-is and returns index 0. -/
theorem claim_C10_add_idempotent_witness :
    stOne.add ⟨1, "T", 100, 0⟩ =
      .ok ({ stOne with
        maxID := if stOne.maxID < (⟨1, "T", 100, 0⟩ : DSDataRecord).id
                 then (⟨1, "T", 100, 0⟩ : DSDataRecord).id
                 else stOne.maxID },
        jsIndexOf [⟨1, "T", 100, 0⟩] 1) :=
  claim_C10_add_idempotent stOne ⟨1, "T", 100, 0⟩ [⟨1, "T", 100, 0⟩] [] rfl
    (by decide) (by decide)

/-- C6: `write(key, data)` encrypts the (already serialized) data, stores
the ciphertext under the key, and returns the hash of the plaintext
pre-encryption bytes — and whenever the ciphertext hashes differently,
the returned digest is not the ciphertext's. `encryptFn` and `hashFn`
abstract `DataStorage.encrypt` and `DataStorage.hash` (SHA-256, lowercase
hex). -/
theorem claim_C6_write_plaintext_hash (encryptFn hashFn : String → String)
    (ls : List (String × String)) (key data : String) :
    (DataStorage.write encryptFn hashFn ls key data).2 = hashFn data
    ∧ (DataStorage.write encryptFn hashFn ls key data).1.lookup key =
        some (encryptFn data)
    ∧ (hashFn (encryptFn data) ≠ hashFn data →
        (DataStorage.write encryptFn hashFn ls key data).2 ≠
          hashFn (encryptFn data)) :=
  ⟨rfl, lookup_lsSetItem ls key (encryptFn data),
   fun hne h => hne h.symm⟩

/-- Witness for C6: with a concrete injective "encryption" and the
identity "hash", the returned digest differs from the ciphertext's. -/
theorem claim_C6_write_plaintext_hash_witness :
    (DataStorage.write (fun s => s ++ "x") (fun s => s) [] "k" "d").2 ≠
      (fun s : String => s) ((fun s : String => s ++ "x") "d") :=
  (claim_C6_write_plaintext_hash (fun s => s ++ "x") (fun s => s) [] "k"
    "d").2.2 (by decide)

/-- C2: when the resolved local and remote hashes (the local one hashed
from the current `_dataString` when absent, the remote one taken from the
`hash` query when absent) are equal strings of SHA-256 hex length, `_sync`
returns without reconciling: the store contents are untouched, `_lastSync`
is persisted as the sync time `t1`, and the returned (frozen) result has
`succeeds = true` and `hash` equal to the remote digest. -/
theorem claim_C2_hash_equal_sync (st : DataStorage) (hf : String → String)
    (la ra : Option String) (env : SyncEnv) (r : String)
    (hres : resolveRemote ra env = .ok r)
    (hloc : la.getD (hf st.dataString) = r)
    (hlen : r.length = 64) :
    st.syncRun hf la ra env =
      ({ st with lastSync := some env.t1 },
       .ok { localHash := r, remoteHash := r, sync := env.t1 })
    ∧ DSSyncResult.succeeds ⟨r, r, env.t1⟩ = true
    ∧ DSSyncResult.hashGet ⟨r, r, env.t1⟩ = r := by
  refine ⟨?_, by simp [DSSyncResult.succeeds],
    by simp [DSSyncResult.hashGet, DSSyncResult.succeeds]⟩
  unfold DataStorage.syncRun
  rw [hres]
  simp only [hloc, beq_self_eq_true, if_true]

/-- Witness for C2: a sync pass over `stOne` where both digests resolve to
the same 64-character value succeeds at time `t1 = 11` without touching
the store. -/
theorem claim_C2_hash_equal_sync_witness :
    stOne.syncRun (fun s => s) (some hexDigest64) none envOk =
      ({ stOne with lastSync := some envOk.t1 },
       .ok { localHash := hexDigest64, remoteHash := hexDigest64,
             sync := envOk.t1 }) :=
  (claim_C2_hash_equal_sync stOne (fun s => s) (some hexDigest64) none envOk
    hexDigest64 rfl rfl (by decide)).1

/-- C5: the compiled delta places an active record under rank `new`
exactly when `created > since`, under rank `modified` exactly when
`created ≤ since` and `modified` is nonzero and `> since`, places a
tombstone under rank `deleted` exactly when its `deleted` timestamp
exists and is `> since`; the `new` and `modified` classifications are
disjoint; and no type's compiled index ever carries rank `conflict`.
Hypotheses: the configured type names are distinct (they key the
`instances` object) and `ty` is a configured type with containers
`(a, dd)`. -/
theorem claim_C5_delta_compiler (st : DataStorage) (since : Nat)
    (ty : String) (a : List DSDataRecord) (dd : List DSDataDeletedRecord)
    (hnd : (st.containers.map Prod.fst).Nodup)
    (hlk : st.containers.lookup ty = some (a, dd)) :
    (∀ r ∈ a,
      ((r.id, r) ∈ recsOfRank (compileInstances st since) ty Rank.new
        ↔ since < r.created))
    ∧ (∀ r ∈ a,
      ((r.id, r) ∈ recsOfRank (compileInstances st since) ty Rank.modified
        ↔ r.created ≤ since ∧ r.modified ≠ 0 ∧ since < r.modified))
    ∧ (∀ t ∈ dd,
      ((t.created, t) ∈ tombsOfRank (compileInstances st since) ty Rank.deleted
        ↔ ∃ d, t.deleted = some d ∧ since < d))
    ∧ (∀ r : DSDataRecord,
      ¬((r.id, r) ∈ recsOfRank (compileInstances st since) ty Rank.new
        ∧ (r.id, r) ∈ recsOfRank (compileInstances st since) ty Rank.modified))
    ∧ (∀ ty' : String,
      lookupRank (compileInstances st since) ty' Rank.conflict = none) := by
  refine ⟨?_, ?_, ?_, ?_, fun ty' => lookupRank_conflict_none st since ty'⟩
  · intro r hr
    rw [recsOfRank_new_eq st since ty a dd hnd hlk, mem_newOf_iff]
    exact ⟨fun h => h.2, fun h => ⟨hr, h⟩⟩
  · intro r hr
    rw [recsOfRank_modified_eq st since ty a dd hnd hlk, mem_modifiedOf_iff]
    exact ⟨fun h => h.2, fun h => ⟨hr, h⟩⟩
  · intro t ht
    rw [tombsOfRank_deleted_eq st since ty a dd hnd hlk, mem_deletedOf_iff]
    exact ⟨fun h => h.2, fun h => ⟨ht, h⟩⟩
  · intro r hmem
    obtain ⟨h1, h2⟩ := hmem
    rw [recsOfRank_new_eq st since ty a dd hnd hlk, mem_newOf_iff] at h1
    rw [recsOfRank_modified_eq st since ty a dd hnd hlk,
      mem_modifiedOf_iff] at h2
    omega

/-- C9: the sync engine is the only writer of `LastSync` — the store
mutators (`_add`, `_replace`, `_remove`) and the ID generator never touch
it — and a `_sync` pass writes it exactly when it ends in success (at its
recorded sync time): a pass that throws in any state (transport failure on
either query, an error while applying the reconciliation response, the
final hash mismatch, or a failed local write) leaves the persisted value
unchanged. -/
theorem claim_C9_lastSync_discipline :
    (∀ (st : DataStorage) (hf : String → String) (la ra : Option String)
      (env : SyncEnv) (e : DSErr),
      (st.syncRun hf la ra env).2 = .error e →
      (st.syncRun hf la ra env).1.lastSync = st.lastSync)
    ∧ (∀ (st : DataStorage) (hf : String → String) (la ra : Option String)
      (env : SyncEnv) (res : DSSyncResult),
      (st.syncRun hf la ra env).2 = .ok res →
      (st.syncRun hf la ra env).1.lastSync = some res.sync)
    ∧ (∀ (st st' : DataStorage) (inst : DSDataRecord) (i : Int),
      st.add inst = .ok (st', i) → st'.lastSync = st.lastSync)
    ∧ (∀ (st st' : DataStorage) (inst : DSDataRecord) (i : Int),
      st.replace inst = .ok (st', i) → st'.lastSync = st.lastSync)
    ∧ (∀ (st st' : DataStorage) (inst : DSDataRecord) (del : Bool) (i : Nat),
      st.remove inst del = .ok (st', i) → st'.lastSync = st.lastSync)
    ∧ (∀ (st : DataStorage) (now : Nat),
      ((st.newID now).2).lastSync = st.lastSync) := by
  refine ⟨?_, ?_, fun st st' inst i h => add_lastSync h,
    fun st st' inst i h => replace_lastSync h,
    fun st st' inst del i h => remove_lastSync h, ?_⟩
  · intro st hf la ra env e h
    rcases syncRun_lastSync_spec st hf la ra env with ⟨-, hl⟩ | ⟨res, hok, -⟩
    · exact hl
    · rw [h] at hok
      exact absurd hok (by simp)
  · intro st hf la ra env res h
    rcases syncRun_lastSync_spec st hf la ra env with
      ⟨hnok, -⟩ | ⟨res', hok, hl⟩
    · rw [h] at hnok
      exact absurd hnok (by simp [Except.isOk, Except.toBool])
    · rw [h] at hok
      obtain rfl := Except.ok.inj hok
      exact hl
  · intro st now
    simp only [DataStorage.newID]
    split <;> rfl

/-- Witness for C9: a sync pass over `stOne` whose `reconcile` query fails
in transit returns the transport error and leaves `lastSync` untouched. -/
theorem claim_C9_lastSync_discipline_witness :
    (stOne.syncRun (fun s => s) (some "aa") (some "bb")
      envReconcileFails).1.lastSync = stOne.lastSync :=
  claim_C9_lastSync_discipline.1 stOne (fun s => s) (some "aa")
    (some "bb") envReconcileFails DSErr.transport rfl

/-- Witness for C5: in `stDelta` with `since = 120`, the record created at
200 is compiled under rank `new`. -/
theorem claim_C5_delta_compiler_witness :
    ((⟨1, "T", 200, 0⟩ : DSDataRecord).id, (⟨1, "T", 200, 0⟩ : DSDataRecord))
      ∈ recsOfRank (compileInstances stDelta 120) "T" Rank.new :=
  ((claim_C5_delta_compiler stDelta 120 "T"
      [⟨1, "T", 200, 0⟩, ⟨2, "T", 100, 150⟩] [⟨50, some 130⟩]
      (by decide) rfl).1 ⟨1, "T", 200, 0⟩ (by decide)).mpr (by decide)

end DS
